import Mathlib

/-!
# Verification of the document-store / search-engine repository

Shallow embedding of the repository's Rust sources:

* `src/documents.rs` — `Document`, `Document::new`, `DocumentStore`
  (`insert`, `get`, `iter`) and the BM25 design comment;
* `src/routes/documents.rs` — the HTTP handlers
  (`handle_update_document`, `handle_get_document`,
  `handle_get_all_documents`);
* `src/app.rs` — shared state wiring (the `/search` route is commented out
  in `build_app`; no search, tokenizer or inverted-index implementation
  exists in the sources, so those parts are modelled from the spec where a
  claim needs them).

`HashMap<String, Document>` is modelled as an association list with
distinct keys; the observable operations (`insert` replaces the entry for
the document's id, `get` looks the id up, `iter` yields all entries in
unspecified order) are translated directly.
-/

/-- Rust `str::split_whitespace` on a character list: maximal runs of
non-whitespace characters, with `acc` the (reversed) current run. -/
def splitWsAux : List Char → List Char → List (List Char)
  | [], [] => []
  | [], acc => [acc.reverse]
  | c :: cs, acc =>
    if c.isWhitespace then
      match acc with
      | [] => splitWsAux cs []
      | _ => acc.reverse :: splitWsAux cs []
    else splitWsAux cs (c :: acc)

/-- `text.split_whitespace()` from Rust, as a list of words. -/
def splitWhitespace (text : String) : List (List Char) :=
  splitWsAux text.toList []

/-- `text.split_whitespace().count()` — the `word_count` computed by
`Document::new` in `src/documents.rs`. -/
def wordCount (text : String) : Nat :=
  (splitWhitespace text).length

/-- The `Document` struct of `src/documents.rs`: id, raw text and the
cached `word_count`. -/
structure Document where
  id : String
  text : String
  word_count : Nat
deriving DecidableEq, Repr

/-- `Document::new` from `src/documents.rs`: stores the arguments and
computes `word_count = text.split_whitespace().count()`. -/
def Document.new (id text : String) : Document :=
  { id := id, text := text, word_count := wordCount text }

/-- `DocumentStore` from `src/documents.rs`: a `HashMap<String, Document>`
modelled as an association list of (key, document) entries. -/
structure DocumentStore where
  documents : List (String × Document)
deriving DecidableEq, Repr

/-- `DocumentStore::insert`: `self.documents.insert(document.id.clone(), document)`
— the entry under the document's id is replaced by the new document, all
other entries are kept. -/
def DocumentStore.insert (s : DocumentStore) (d : Document) : DocumentStore :=
  ⟨(d.id, d) :: s.documents.filter (fun p => p.1 ≠ d.id)⟩

/-- `DocumentStore::get`: `self.documents.get(id)`. -/
def DocumentStore.get (s : DocumentStore) (id : String) : Option Document :=
  s.documents.lookup id

/-- `DocumentStore::iter`: `self.documents.iter()`, all (key, document)
entries. -/
def DocumentStore.iter (s : DocumentStore) : List (String × Document) :=
  s.documents

/-- The `HashMap` invariant the Rust store maintains by construction:
keys are distinct, and `insert` keys every document by its own id. -/
def DocumentStore.WF (s : DocumentStore) : Prop :=
  (s.documents.map Prod.fst).Nodup ∧ ∀ p ∈ s.documents, p.1 = p.2.id

instance (s : DocumentStore) : Decidable s.WF := by
  unfold DocumentStore.WF; infer_instance

/-- `handle_update_document` from `src/routes/documents.rs`: PUT
/document/{key} builds `Document::new(key, text)` and inserts it; the
handler returns `()`, which axum serves as HTTP 200. Modelled as the
status code paired with the updated store. -/
def handle_update_document (key text : String) (s : DocumentStore) :
    Nat × DocumentStore :=
  (200, s.insert (Document.new key text))

/-- `handle_get_document` from `src/routes/documents.rs`: GET
/document/{key} returns a clone of the stored document or HTTP 404. -/
def handle_get_document (key : String) (s : DocumentStore) :
    Except Nat Document :=
  match s.get key with
  | some d => Except.ok d
  | none => Except.error 404

/-- `handle_get_all_documents` from `src/routes/documents.rs`: GET
/documents clones every stored document, order unspecified. -/
def handle_get_all_documents (s : DocumentStore) : List Document :=
  s.iter.map Prod.snd

/-- Modelled from the spec: the repository implements no Tokenizer
component (`src/documents.rs` only splits on whitespace); §4.1 specifies
"split on whitespace, lowercase, strip leading/trailing non-alphanumeric
characters per token; tokens that become empty after stripping are
discarded". `stripEnds` is the per-token strip. -/
def stripEnds (w : List Char) : List Char :=
  ((w.dropWhile (fun c => !c.isAlphanum)).reverse.dropWhile
    (fun c => !c.isAlphanum)).reverse

/-- Modelled from the spec: the §4.1 tokenizer policy applied to a text —
whitespace split, lowercase, strip, discard empties. -/
def specTokenize (text : String) : List String :=
  (splitWhitespace text).filterMap (fun w =>
    let t := stripEnds (w.map Char.toLower)
    if t.isEmpty then none else some (String.mk t))

/-- Concrete one-document store used to instantiate theorems with
hypotheses. -/
def sampleDoc : Document := Document.new "a" "hello world"

/-- Concrete store holding `sampleDoc` under its id. -/
def sampleStore : DocumentStore := (DocumentStore.mk []).insert sampleDoc

/-- Concrete two-document store with well-formed HashMap shape. -/
def sampleStore2 : DocumentStore :=
  sampleStore.insert (Document.new "b" "second document")

/-- Modelled from the spec: the repository has no Document-with-tokens
record (§3 gives `{id, text, tokens, length}` with `length = count(tokens)`);
needed by the claims about the missing index and search code. -/
structure SpecDocument where
  id : String
  text : String
  tokens : List String
deriving DecidableEq, Repr

/-- Modelled from the spec: document construction — tokenize the text and
cache the token sequence (§3, §4.2). -/
def SpecDocument.new (id text : String) : SpecDocument :=
  { id := id, text := text, tokens := specTokenize text }

/-- Modelled from the spec: the repository has no `InvertedIndex` (§4.3,
only the BM25 design comment exists in `src/documents.rs`): each token
maps to its posting list (document id → term frequency), plus the corpus
statistics `total_documents` and `total_token_count`. -/
structure InvertedIndex where
  postings : List (String × List (String × Nat))
  totalDocuments : Nat
  totalTokenCount : Nat
deriving DecidableEq, Repr

/-- Posting list stored for a token in a postings table, empty when the
token is absent. -/
def postingsIn (ps : List (String × List (String × Nat))) (t : String) :
    List (String × Nat) :=
  (ps.lookup t).getD []

/-- Replace the posting list stored for a token. -/
def setPostings (ps : List (String × List (String × Nat))) (t : String)
    (pl : List (String × Nat)) : List (String × List (String × Nat)) :=
  (t, pl) :: ps.filter (fun p => p.1 ≠ t)

/-- Modelled from the spec: `postings_for(token)` (§4.3), a read-only
lookup that answers the empty list for unknown tokens. -/
def InvertedIndex.postingsFor (idx : InvertedIndex) (t : String) :
    List (String × Nat) :=
  postingsIn idx.postings t

/-- Modelled from the spec: `add(document_id, tokens)` (§4.3) — for each
distinct token, insert/overwrite the posting for `document_id` with the
term frequency, and bump `total_documents` and `total_token_count`. -/
def InvertedIndex.add (idx : InvertedIndex) (docId : String)
    (tokens : List String) : InvertedIndex :=
  { postings := tokens.dedup.foldl (fun ps t =>
      setPostings ps t ((docId, tokens.count t) ::
        (postingsIn ps t).filter (fun q => q.1 ≠ docId))) idx.postings
    totalDocuments := idx.totalDocuments + 1
    totalTokenCount := idx.totalTokenCount + tokens.length }

/-- Modelled from the spec: `remove(document_id, tokens)` (§4.3) — for
each distinct token, delete the posting for `document_id`, dropping the
token's entry entirely when its posting list becomes empty, and decrement
the statistics symmetrically. -/
def InvertedIndex.remove (idx : InvertedIndex) (docId : String)
    (tokens : List String) : InvertedIndex :=
  { postings := tokens.dedup.foldl (fun ps t =>
      let pl := (postingsIn ps t).filter (fun q => q.1 ≠ docId)
      if pl.isEmpty then ps.filter (fun p => p.1 ≠ t)
      else setPostings ps t pl) idx.postings
    totalDocuments := idx.totalDocuments - 1
    totalTokenCount := idx.totalTokenCount - tokens.length }

/-- Document frequency of a token: the size of its posting list (§3). -/
def InvertedIndex.df (idx : InvertedIndex) (t : String) : Nat :=
  (idx.postingsFor t).length

/-- The empty index. -/
def emptyIndex : InvertedIndex := ⟨[], 0, 0⟩

/-- Modelled from the spec: the combined consistency unit of §5 — the
document store (with cached tokens) plus the inverted index. -/
structure Engine where
  docs : List (String × SpecDocument)
  index : InvertedIndex
deriving DecidableEq, Repr

/-- The engine with zero live documents. -/
def emptyEngine : Engine := ⟨[], emptyIndex⟩

/-- Modelled from the spec: `insert_or_replace(id, text)` (§4.2) — if a
prior document exists under the id, first retract all postings owned by
the prior version (using its cached tokens), then tokenize the new text,
store the document, and add its postings. -/
def Engine.insertOrReplace (e : Engine) (id text : String) : Engine :=
  let idx1 := match e.docs.lookup id with
    | some old => e.index.remove id old.tokens
    | none => e.index
  let d := SpecDocument.new id text
  { docs := (id, d) :: e.docs.filter (fun p => p.1 ≠ id)
    index := idx1.add id d.tokens }

/-- Modelled from the spec: the BM25 constant `k1 = 1.5` (§4.4). -/
def bm25K1 : ℝ := 1.5

/-- Modelled from the spec: the BM25 constant `b = 0.75` (§4.4). -/
def bm25B : ℝ := 0.75

/-- Modelled from the spec: `idf(t) = ln((N - df + 0.5) / (df + 0.5))`
(§4.4 and the design comment in `src/documents.rs`). -/
noncomputable def idf (n df : Nat) : ℝ :=
  Real.log (((n : ℝ) - (df : ℝ) + 0.5) / ((df : ℝ) + 0.5))

/-- Modelled from the spec: the BM25 term-frequency saturation
`f * (k1 + 1) / (f + k1 * (1 - b + b * docLen / avgdl))` (§4.4). -/
noncomputable def tfScore (f docLen : Nat) (avgdl : ℝ) : ℝ :=
  (f : ℝ) * (bm25K1 + 1) /
    ((f : ℝ) + bm25K1 * (1 - bm25B + bm25B * (docLen : ℝ) / avgdl))

/-- Length of the live document with the given id (0 when absent). -/
def Engine.docLen (e : Engine) (docId : String) : Nat :=
  match e.docs.lookup docId with
  | some d => d.tokens.length
  | none => 0

/-- Modelled from the spec: `average_document_length`, defined as 0 when
`total_documents = 0` (§3). -/
noncomputable def Engine.avgdl (e : Engine) : ℝ :=
  if e.index.totalDocuments = 0 then 0
  else (e.index.totalTokenCount : ℝ) / (e.index.totalDocuments : ℝ)

/-- Accumulate a per-term contribution into the per-document running
total (§4.5): a mapping from document id to accumulated score. -/
noncomputable def addScore : List (String × ℝ) → String → ℝ → List (String × ℝ)
  | [], docId, sc => [(docId, sc)]
  | (k, v) :: rest, docId, sc =>
    if k = docId then (k, v + sc) :: rest
    else (k, v) :: addScore rest docId sc

/-- Modelled from the spec: the QueryEngine accumulation (§4.5) — for
each distinct query token fetch its posting list and add
`idf(t) * tf_score(t, d)` for every document in it; a term is skipped
entirely when `avgdl = 0` (§4.4, avoiding the division by zero). -/
noncomputable def scoreQuery (e : Engine) (tokens : List String) :
    List (String × ℝ) :=
  tokens.dedup.foldl (fun acc t =>
    if e.avgdl = 0 then acc
    else
      (e.index.postingsFor t).foldl (fun acc2 q =>
        addScore acc2 q.1
          (idf e.index.totalDocuments (e.index.df t) *
            tfScore q.2 (e.docLen q.1) e.avgdl)) acc) []

/-- Result order of §4.5: descending score, ties broken by ascending
document id. -/
noncomputable def resultLe (x y : String × ℝ) : Bool :=
  @decide (y.2 < x.2 ∨ (x.2 = y.2 ∧ x.1 ≤ y.1)) (Classical.propDecidable _)

/-- Modelled from the spec: `search(query_text, top_k)` (§4.5) — the
`/search` route is commented out in `src/app.rs` and no query engine
exists in the sources. Tokenize the query with the ingestion tokenizer,
accumulate per-document BM25 scores, sort (descending score, ties by
ascending id) and truncate to `top_k`. -/
noncomputable def Engine.search (e : Engine) (queryText : String)
    (topK : Nat) : List (String × ℝ) :=
  ((scoreQuery e (specTokenize queryText)).mergeSort resultLe).take topK

theorem get_insert_self (s : DocumentStore) (d : Document) :
    (s.insert d).get d.id = some d :=
  List.lookup_cons_self

theorem lookup_filter_ne {β : Type} (l : List (String × β)) (x id : String)
    (h : id ≠ x) :
    (l.filter (fun p => p.1 ≠ x)).lookup id = l.lookup id := by
  induction l with
  | nil => rfl
  | cons p rest ih =>
    obtain ⟨a, b⟩ := p
    by_cases hp : a = x
    · rw [List.filter_cons_of_neg (by simpa using hp), ih, List.lookup_cons]
      have hne : (id == a) = false := by
        rw [beq_eq_false_iff_ne, hp]; exact h
      rw [hne]
    · rw [List.filter_cons_of_pos (by simpa using hp), List.lookup_cons,
        List.lookup_cons]
      cases hid : (id == a) with
      | true => rfl
      | false => exact ih

theorem lookup_mem {β : Type} :
    ∀ {l : List (String × β)} {k : String} {v : β},
    l.lookup k = some v → (k, v) ∈ l
  | [], _, _, h => by simp at h
  | (a, b) :: rest, k, v, h => by
    rw [List.lookup_cons] at h
    cases hk : (k == a) with
    | true =>
      rw [hk] at h
      cases h
      have : k = a := by simpa using hk
      subst this
      exact List.mem_cons_self _ _
    | false =>
      rw [hk] at h
      exact List.mem_cons_of_mem _ (lookup_mem h)

theorem lookup_of_mem_nodup {β : Type} {l : List (String × β)} {k : String}
    {v : β} (hn : (l.map Prod.fst).Nodup) (hm : (k, v) ∈ l) :
    l.lookup k = some v := by
  induction l with
  | nil => simp at hm
  | cons p rest ih =>
    simp only [List.map_cons, List.nodup_cons] at hn
    rcases List.mem_cons.mp hm with h | h
    · rw [← h]; exact List.lookup_cons_self
    · have hk : k ≠ p.1 := by
        intro he
        exact hn.1 (he ▸ (List.mem_map.mpr ⟨(k, v), h, rfl⟩))
      have hne : (k == p.1) = false := beq_eq_false_iff_ne.mpr hk
      obtain ⟨a, b⟩ := p
      rw [List.lookup_cons]
      simp only at hne
      rw [hne]
      exact ih hn.2 h

/-- C1 — counterexample. After `insert_or_replace("a", "!")`, `get "a"`
returns a document with `word_count = 1` (the Rust code counts
whitespace-separated words), while the spec's tokenizer produces 0 tokens
from `"!"` (the lone word strips to empty and is discarded), so the
claimed equality between `word_count` and the tokenizer's token count
fails. -/
theorem C1_counterexample :
    (((DocumentStore.mk []).insert (Document.new "a" "!")).get "a" =
      some { id := "a", text := "!", word_count := 1 }) ∧
    (specTokenize "!").length = 0 := by
  constructor
  · exact get_insert_self (DocumentStore.mk []) (Document.new "a" "!")
  · decide

/-- C1 — amended. After `insert_or_replace(id, text)`, `get id` returns a
document whose `text` equals the input and whose `word_count` equals the
number of whitespace-separated words of `text`
(`text.split_whitespace().count()`; tokens are not lowercased, stripped of
punctuation, or discarded). -/
theorem C1_round_trip (id text : String) (s : DocumentStore) :
    (s.insert (Document.new id text)).get id = some (Document.new id text) ∧
    (Document.new id text).text = text ∧
    (Document.new id text).word_count = wordCount text :=
  ⟨get_insert_self s (Document.new id text), rfl, rfl⟩

/-- C4: `insert_or_replace(id, text)` always succeeds (it is a total
function): afterwards the store holds exactly one entry under `id`, and
that entry is the document built from the new text. -/
theorem C4_insert_or_replace (id text : String) (s : DocumentStore) :
    (s.insert (Document.new id text)).get id = some (Document.new id text) ∧
    ((s.insert (Document.new id text)).documents.filter
      (fun p => p.1 = id)).length = 1 := by
  refine ⟨get_insert_self s (Document.new id text), ?_⟩
  show ((((Document.new id text).id, Document.new id text) ::
      s.documents.filter (fun p => p.1 ≠ (Document.new id text).id)).filter
      (fun p => p.1 = id)).length = 1
  rw [List.filter_cons_of_pos (by simp [Document.new]), List.filter_filter]
  have : ∀ p : String × Document,
      (decide (p.1 = id) && decide (p.1 ≠ (Document.new id text).id)) =
        false := by
    intro p
    by_cases h : p.1 = id <;> simp [h, Document.new]
  simp only [this, List.filter_false, List.length_cons, List.length_nil]

/-- C5: `get` is a pure read — when a document is stored under the key,
GET /document/{key} answers 200 with that document; when none is, it
answers 404; the store is untouched in both cases (the handler is a
function of the store that returns no modified store). -/
theorem C5_get_semantics (key : String) (s : DocumentStore) :
    (∀ d : Document, s.get key = some d →
      handle_get_document key s = Except.ok d) ∧
    (s.get key = none → handle_get_document key s = Except.error 404) := by
  constructor
  · intro d h; simp [handle_get_document, h]
  · intro h; simp [handle_get_document, h]

/-- C5 — witness: in the concrete one-document store, GET of the present
id answers 200 with the stored document and GET of an absent id answers
404. -/
theorem C5_witness :
    handle_get_document "a" sampleStore = Except.ok sampleDoc ∧
    handle_get_document "b" sampleStore = Except.error 404 :=
  ⟨(C5_get_semantics "a" sampleStore).1 sampleDoc (by decide),
   (C5_get_semantics "b" sampleStore).2 (by decide)⟩

/-- C7: PUT /document/{id} never answers NotFound: for every key —
including one with no live document — the handler stores
`Document::new(key, text)` and answers 200. -/
theorem C7_update_always_succeeds (key text : String) (s : DocumentStore) :
    (handle_update_document key text s).1 = 200 ∧
    (handle_update_document key text s).2.get key =
      some (Document.new key text) :=
  ⟨rfl, get_insert_self s (Document.new key text)⟩

/-- C9: `DocumentStore::insert` only affects the entry for the inserted
document's id — `get` at any other id is unchanged. -/
theorem C9_insert_frame (s : DocumentStore) (d : Document) (id : String)
    (h : id ≠ d.id) : (s.insert d).get id = s.get id := by
  show (((d.id, d) :: s.documents.filter
      (fun p => p.1 ≠ d.id)).lookup id : Option Document) = s.documents.lookup id
  rw [List.lookup_cons]
  have hne : (id == d.id) = false := beq_eq_false_iff_ne.mpr h
  rw [hne]
  exact lookup_filter_ne s.documents d.id id h

/-- C9 — witness: inserting a document under id "b" leaves the lookup of
id "a" in the concrete store unchanged. -/
theorem C9_witness :
    (sampleStore.insert (Document.new "b" "zz")).get "a" =
      sampleStore.get "a" :=
  C9_insert_frame sampleStore (Document.new "b" "zz") "a" (by decide)

/-- C10: the `word_count` computed by `Document::new` depends only on the
text, never on the id, and the id and text fields store the arguments
unchanged. -/
theorem C10_word_count_id_independent (id1 id2 text : String) :
    (Document.new id1 text).word_count = (Document.new id2 text).word_count ∧
    (Document.new id1 text).id = id1 ∧
    (Document.new id1 text).text = text :=
  ⟨rfl, rfl, rfl⟩

/-- C8: for a well-formed store (distinct HashMap keys, each document
keyed by its own id), GET /documents returns exactly the live documents —
one entry per stored id, no duplicates, and a document appears in the
output exactly when it is the one stored under its id. Order is
unspecified. -/
theorem C8_list_exact (s : DocumentStore) (h : s.WF) :
    (handle_get_all_documents s).length = s.documents.length ∧
    (handle_get_all_documents s).Nodup ∧
    ∀ d : Document, d ∈ handle_get_all_documents s ↔ s.get d.id = some d := by
  obtain ⟨hnodup, hids⟩ := h
  refine ⟨List.length_map _ _, ?_, ?_⟩
  · have hmap : s.documents.map Prod.fst =
        (handle_get_all_documents s).map Document.id := by
      show s.documents.map Prod.fst =
        (s.documents.map Prod.snd).map Document.id
      rw [List.map_map]
      exact List.map_congr_left hids
    rw [hmap] at hnodup
    exact hnodup.of_map
  · intro d
    constructor
    · intro hd
      obtain ⟨p, hp, he⟩ := List.mem_map.mp hd
      have hkey : p.1 = d.id := by rw [hids p hp, he]
      have hpe : p = (d.id, d) := by
        obtain ⟨k, v⟩ := p
        simp only at hkey he
        rw [hkey, he]
      have : (d.id, d) ∈ s.documents := hpe ▸ hp
      exact lookup_of_mem_nodup hnodup this
    · intro hd
      exact List.mem_map.mpr ⟨(d.id, d), lookup_mem hd, rfl⟩

/-- C8 — witness: in the concrete two-document store, the listing has one
entry per stored id and contains the stored document `sampleDoc`. -/
theorem C8_witness :
    (handle_get_all_documents sampleStore2).length =
      sampleStore2.documents.length ∧
    (sampleDoc ∈ handle_get_all_documents sampleStore2 ↔
      sampleStore2.get sampleDoc.id = some sampleDoc) :=
  ⟨(C8_list_exact sampleStore2 (by decide)).1,
   (C8_list_exact sampleStore2 (by decide)).2.2 sampleDoc⟩

/-- C3: replacing a document retracts the prior version's postings before
adding the new ones — inserting "x y" under id "A" and then replacing it
with "z" leaves token "x" with document frequency 0 (its posting-list
entry is removed from the table entirely) and token "z" with document
frequency 1. -/
theorem C3_retract_before_insert :
    ((emptyEngine.insertOrReplace "A" "x y").insertOrReplace
        "A" "z").index.df "x" = 0 ∧
    ((emptyEngine.insertOrReplace "A" "x y").insertOrReplace
        "A" "z").index.postings.lookup "x" = none ∧
    ((emptyEngine.insertOrReplace "A" "x y").insertOrReplace
        "A" "z").index.df "z" = 1 := by
  refine ⟨by decide, by decide, by decide⟩

theorem foldl_preserve {α β : Type} (P : α → Prop) (f : α → β → α)
    (h : ∀ a x, P a → P (f a x)) :
    ∀ (l : List β) (a : α), P a → P (l.foldl f a)
  | [], _, ha => ha
  | x :: xs, a, ha => foldl_preserve P f h xs (f a x) (h a x ha)

theorem foldl_congr_id {α β : Type} (f : α → β → α) (l : List β) (a : α)
    (h : ∀ x ∈ l, ∀ acc, f acc x = acc) : l.foldl f a = a := by
  induction l generalizing a with
  | nil => rfl
  | cons x xs ih =>
    rw [List.foldl_cons, h x (List.mem_cons_self x xs)]
    exact ih a (fun y hy acc => h y (List.mem_cons_of_mem x hy) acc)

theorem mem_keys_addScore :
    ∀ (acc : List (String × ℝ)) (docId x : String) (sc : ℝ),
    x ∈ (addScore acc docId sc).map Prod.fst →
      x ∈ acc.map Prod.fst ∨ x = docId
  | [], docId, x, sc => by
    rw [addScore]; simp
  | (k, v) :: rest, docId, x, sc => by
    rw [addScore]
    by_cases hk : k = docId
    · rw [if_pos hk]
      intro h
      exact Or.inl (by simpa using h)
    · rw [if_neg hk]
      intro h
      simp only [List.map_cons, List.mem_cons] at h ⊢
      rcases h with h | h
      · exact Or.inl (Or.inl h)
      · rcases mem_keys_addScore rest docId x sc h with h' | h'
        · exact Or.inl (Or.inr h')
        · exact Or.inr h'

theorem nodup_keys_addScore :
    ∀ (acc : List (String × ℝ)) (docId : String) (sc : ℝ),
    (acc.map Prod.fst).Nodup → ((addScore acc docId sc).map Prod.fst).Nodup
  | [], docId, sc, _ => by rw [addScore]; simp
  | (k, v) :: rest, docId, sc, h => by
    rw [addScore]
    simp only [List.map_cons, List.nodup_cons] at h
    by_cases hk : k = docId
    · rw [if_pos hk]
      simp only [List.map_cons, List.nodup_cons]
      exact h
    · rw [if_neg hk]
      simp only [List.map_cons, List.nodup_cons]
      refine ⟨?_, nodup_keys_addScore rest docId sc h.2⟩
      intro hmem
      rcases mem_keys_addScore rest docId k sc hmem with h' | h'
      · exact h.1 h'
      · exact hk h'

theorem nodup_keys_scoreQuery (e : Engine) (tokens : List String) :
    ((scoreQuery e tokens).map Prod.fst).Nodup := by
  rw [scoreQuery]
  refine foldl_preserve
    (fun acc : List (String × ℝ) => (acc.map Prod.fst).Nodup) _ ?_ _ _
    (by simp)
  intro acc t ha
  dsimp only
  split
  · exact ha
  · exact foldl_preserve
      (fun a : List (String × ℝ) => (a.map Prod.fst).Nodup) _
      (fun a (q : String × Nat) hq => nodup_keys_addScore a q.1 _ hq)
      _ acc ha

theorem resultLe_trans (x y z : String × ℝ) (h1 : resultLe x y = true)
    (h2 : resultLe y z = true) : resultLe x z = true := by
  simp only [resultLe, decide_eq_true_eq] at h1 h2 ⊢
  rcases h1 with h1 | ⟨h1e, h1s⟩ <;> rcases h2 with h2 | ⟨h2e, h2s⟩
  · exact Or.inl (h2.trans h1)
  · exact Or.inl (by rw [← h2e]; exact h1)
  · exact Or.inl (by rw [h1e]; exact h2)
  · exact Or.inr ⟨h1e.trans h2e, h1s.trans h2s⟩

theorem resultLe_total (x y : String × ℝ) :
    (resultLe x y || resultLe y x) = true := by
  simp only [resultLe, Bool.or_eq_true, decide_eq_true_eq]
  rcases lt_trichotomy x.2 y.2 with h | h | h
  · exact Or.inr (Or.inl h)
  · rcases le_total x.1 y.1 with h' | h'
    · exact Or.inl (Or.inr ⟨h, h'⟩)
    · exact Or.inr (Or.inr ⟨h.symm, h'⟩)
  · exact Or.inl (Or.inl h)

/-- C2: for every corpus state, query text and positive `top_k`, the
search results are at most `top_k` pairs, in strictly descending score
order with ties between equal scores broken by strictly ascending
document id. -/
theorem C2_search_contract (e : Engine) (q : String) (k : Nat)
    (hk : 0 < k) :
    (e.search q k).length ≤ k ∧
    (e.search q k).Pairwise
      (fun x y => y.2 < x.2 ∨ (x.2 = y.2 ∧ x.1 < y.1)) := by
  refine ⟨List.length_take_le k _, ?_⟩
  rw [Engine.search]
  have hsorted := List.sorted_mergeSort resultLe_trans resultLe_total
    (scoreQuery e (specTokenize q))
  have hperm : List.Perm
      (((scoreQuery e (specTokenize q)).mergeSort resultLe).map Prod.fst)
      ((scoreQuery e (specTokenize q)).map Prod.fst) :=
    (List.mergeSort_perm _ resultLe).map Prod.fst
  have hnodup : (((scoreQuery e (specTokenize q)).mergeSort
      resultLe).map Prod.fst).Nodup :=
    hperm.symm.nodup (nodup_keys_scoreQuery e _)
  have hpw_ne : ((scoreQuery e (specTokenize q)).mergeSort
      resultLe).Pairwise (fun x y => x.1 ≠ y.1) :=
    List.pairwise_map.mp hnodup
  have hcomb := hsorted.and hpw_ne
  refine (hcomb.sublist (List.take_sublist k _)).imp ?_
  intro x y hxy
  obtain ⟨hle, hne⟩ := hxy
  simp only [resultLe, decide_eq_true_eq] at hle
  rcases hle with h | ⟨he, hs⟩
  · exact Or.inl h
  · exact Or.inr ⟨he, lt_of_le_of_ne hs hne⟩

/-- C2 — witness: the contract instantiated at the empty corpus, query
"cat" and `top_k = 2`. -/
theorem C2_witness :
    0 < 2 ∧
    ((emptyEngine.search "cat" 2).length ≤ 2 ∧
      (emptyEngine.search "cat" 2).Pairwise
        (fun x y => y.2 < x.2 ∨ (x.2 = y.2 ∧ x.1 < y.1))) :=
  ⟨by decide, C2_search_contract emptyEngine "cat" 2 (by decide)⟩

/-- C6: searching against an empty corpus (zero live documents — the
term is skipped when `avgdl = 0`, so no division by zero arises), or with
a query none of whose tokens has a posting, yields the empty result list;
`search` is a total function and never fails. -/
theorem C6_empty_or_unknown (e : Engine) (q : String) (k : Nat)
    (h : e.index.totalDocuments = 0 ∨
      ∀ t ∈ specTokenize q, e.index.postingsFor t = []) :
    e.search q k = [] := by
  have hsq : scoreQuery e (specTokenize q) = [] := by
    rw [scoreQuery]
    refine foldl_congr_id _ _ _ ?_
    intro t ht acc
    dsimp only
    rcases h with h0 | hu
    · have hz : e.avgdl = 0 := by rw [Engine.avgdl, if_pos h0]
      rw [if_pos hz]
    · by_cases hz : e.avgdl = 0
      · rw [if_pos hz]
      · rw [if_neg hz, hu t (List.mem_dedup.mp ht)]
        rfl
  rw [Engine.search, hsq]
  simp

/-- C6 — witness: searching "hello" against the empty corpus returns the
empty result list. -/
theorem C6_witness : emptyEngine.search "hello" 5 = [] :=
  C6_empty_or_unknown emptyEngine "hello" 5 (Or.inl rfl)
